import Mathlib

/-!
Shallow embedding of the two-stage Tavily corruption-news ingestion pipeline:

  * src/tavily_ingestion_lambda.py : search stage (normalize provider results,
    write one JSON batch file per run to S3);
  * src/tavily_loader_lambda.py : load stage (watermark resolution, batch
    selection, per-URL upsert into the relational table).

Modelling conventions:
  * Python strings are Lean strings (lists of codepoints); Python string
    comparison is codepoint-lexicographic, mirrored by lexLt below.
  * Python dict .get returns Option values; absent keys are none.
  * The Postgres table is a list of rows; the SERIAL id is the insertion index.
    NOT NULL constraints of the CREATE TABLE (url, title, source) are checked on
    the incoming tuple, as Postgres does before ON CONFLICT arbitration.
    Driver-level transaction state beyond the source text is not modelled:
    each insert_into_db call either commits its single statement or raises.
  * External effects (S3 reads/writes, DB connection, the Tavily call) are
    inputs: stores are association lists, failure injection is a Bool.
-/

/-! ## Python string primitives used by the source -/

/-- Codepoint-lexicographic strict order on char lists: Python string `<`. -/
def lexLt : List Char → List Char → Bool
  | [], [] => false
  | [], _ :: _ => true
  | _ :: _, [] => false
  | a :: as, b :: bs =>
    if a.val < b.val then true else if b.val < a.val then false else lexLt as bs

/-- Python string comparison s1 <= s2: in the total codepoint order this is
not (s2 < s1). -/
def pyLeS (a b : String) : Bool := !(lexLt b.data a.data)

/-- Python str.split(sep) for a one-character separator ("a/b".split yields
["a","b"], "".split yields [""]). -/
def splitChar (sep : Char) : List Char → List (List Char)
  | [] => [[]]
  | c :: rest =>
    match splitChar sep rest with
    | [] => [[]]
    | h :: t => if c = sep then [] :: h :: t else (c :: h) :: t

/-- Python sep.join(parts) for a one-character separator. -/
def joinChar (sep : Char) : List (List Char) → List Char
  | [] => []
  | [x] => x
  | x :: y :: t => x ++ sep :: joinChar sep (y :: t)

/-- Python sep.join(parts) for a string separator. -/
def pyJoin (sep : String) : List String → String
  | [] => ""
  | [x] => x
  | x :: y :: t => x ++ sep ++ pyJoin sep (y :: t)

/-- Characters removed by Python str.strip() with no argument. -/
def pyWhitespace (c : Char) : Bool :=
  c = ' ' || c = '\t' || c = '\n' || c = '\r' || c.val = 11 || c.val = 12

/-- Python str.strip(): drop whitespace from both ends. -/
def pyStrip (s : String) : String :=
  String.mk (((s.data.dropWhile pyWhitespace).reverse.dropWhile pyWhitespace).reverse)

/-! ## datetime model

The fields of Python datetime objects that the source reads, plus an optional
UTC offset in minutes standing for tzinfo. -/

structure PyDateTime where
  year : Nat
  month : Nat
  day : Nat
  hour : Nat
  minute : Nat
  second : Nat
  microsecond : Nat
  tzOffsetMinutes : Option Int
deriving DecidableEq, Repr

/-- Leap-year rule used by datetime's calendar. -/
def isLeapYear (y : Nat) : Bool := y % 4 = 0 && (y % 100 ≠ 0 || y % 400 = 0)

def daysInMonth (y m : Nat) : Nat :=
  if m = 2 then (if isLeapYear y then 29 else 28)
  else if m = 4 ∨ m = 6 ∨ m = 9 ∨ m = 11 then 30
  else 31

/-- Value of a decimal digit character. -/
def digit? (c : Char) : Option Nat :=
  if c.isDigit then some (c.toNat - 48) else none

def parse2 (a b : Char) : Option Nat :=
  match digit? a, digit? b with
  | some x, some y => some (10 * x + y)
  | _, _ => none

def parse4 (a b c d : Char) : Option Nat :=
  match digit? a, digit? b, digit? c, digit? d with
  | some x, some y, some z, some w => some (1000 * x + 100 * y + 10 * z + w)
  | _, _, _, _ => none

/-- Fraction digits after the decimal point of the seconds field: pre-3.11
datetime.fromisoformat accepts exactly 3 or 6 digits. Returns microseconds. -/
def parseMicro : List Char → Option Nat
  | [a, b, c] =>
    match digit? a, digit? b, digit? c with
    | some x, some y, some z => some ((100 * x + 10 * y + z) * 1000)
    | _, _, _ => none
  | [a, b, c, d, e, f] =>
    match digit? a, digit? b, digit? c, digit? d, digit? e, digit? f with
    | some x, some y, some z, some u, some v, some w =>
      some (100000 * x + 10000 * y + 1000 * z + 100 * u + 10 * v + w)
    | _, _, _, _, _, _ => none
  | _ => none

/-- Split the time string at the first '-' or '+' ('-' probed first, as in
the CPython parser); the second component keeps the sign character. -/
def splitAtSign (l : List Char) : List Char × List Char :=
  match l.findIdx? (fun c => c = '-') with
  | some i => (l.take i, l.drop i)
  | none =>
    match l.findIdx? (fun c => c = '+') with
    | some i => (l.take i, l.drop i)
    | none => (l, [])

/-- Parse the clock part HH[:MM[:SS[.fff or .ffffff]]], validating ranges as the
datetime constructor does. Returns (hour, minute, second, microsecond). -/
def parseClock : List Char → Option (Nat × Nat × Nat × Nat)
  | [h1, h2] => do
    let hh ← parse2 h1 h2
    if hh ≤ 23 then some (hh, 0, 0, 0) else none
  | [h1, h2, ':', m1, m2] => do
    let hh ← parse2 h1 h2
    let mm ← parse2 m1 m2
    if hh ≤ 23 ∧ mm ≤ 59 then some (hh, mm, 0, 0) else none
  | [h1, h2, ':', m1, m2, ':', s1, s2] => do
    let hh ← parse2 h1 h2
    let mm ← parse2 m1 m2
    let ss ← parse2 s1 s2
    if hh ≤ 23 ∧ mm ≤ 59 ∧ ss ≤ 59 then some (hh, mm, ss, 0) else none
  | h1 :: h2 :: ':' :: m1 :: m2 :: ':' :: s1 :: s2 :: '.' :: ds => do
    let hh ← parse2 h1 h2
    let mm ← parse2 m1 m2
    let ss ← parse2 s1 s2
    let us ← parseMicro ds
    if hh ≤ 23 ∧ mm ≤ 59 ∧ ss ≤ 59 then some (hh, mm, ss, us) else none
  | _ => none

/-- Parse the optional timezone tail: empty, or exactly a signed HH:MM offset
(the subset of offset shapes the source exercises). -/
def parseTzTail : List Char → Option (Option Int)
  | [] => some none
  | sign :: rest =>
    match rest with
    | [o1, o2, ':', o3, o4] => do
      let oh ← parse2 o1 o2
      let om ← parse2 o3 o4
      if oh ≤ 23 ∧ om ≤ 59 then
        let m : Int := oh * 60 + om
        some (some (if sign = '-' then -m else m))
      else none
    | _ => none

def parseTimePart (l : List Char) : Option (Nat × Nat × Nat × Nat × Option Int) := do
  let (tp, op) := splitAtSign l
  let (hh, mm, ss, us) ← parseClock tp
  let off ← parseTzTail op
  pure (hh, mm, ss, us, off)

/-- datetime.fromisoformat on the char list of the input. Pre-3.11 semantics:
YYYY-MM-DD, optionally one separator character and a clock part with optional
UTC offset; a trailing Z is NOT accepted (which is why the source rewrites it).
Returns none where Python raises ValueError. -/
def fromisoformatL : List Char → Option PyDateTime
  | y1 :: y2 :: y3 :: y4 :: '-' :: m1 :: m2 :: '-' :: d1 :: d2 :: rest => do
    let y ← parse4 y1 y2 y3 y4
    let mo ← parse2 m1 m2
    let dy ← parse2 d1 d2
    if 1 ≤ y ∧ 1 ≤ mo ∧ mo ≤ 12 ∧ 1 ≤ dy ∧ dy ≤ daysInMonth y mo then
      match rest with
      | [] => some ⟨y, mo, dy, 0, 0, 0, 0, none⟩
      | _sep :: timeChars => do
        let (hh, mm, ss, us, off) ← parseTimePart timeChars
        some ⟨y, mo, dy, hh, mm, ss, us, off⟩
    else none
  | _ => none

def fromisoformat (s : String) : Option PyDateTime := fromisoformatL s.data

/-! ## src/tavily_ingestion_lambda.py -/

/-- The KEYWORDS module constant. -/
def KEYWORDS : List String :=
  ["Corruption", "bribery", "fraud", "graft", "embezzlement", "wasteful spending",
   "misuse of public funds", "financial misconduct"]

/-- Characters allowed in a URL scheme after the first (urllib). -/
def schemeChar (c : Char) : Bool := c.isAlphanum || c = '+' || c = '-' || c = '.'

/-- urlparse scheme removal: if the text before the first ':' is a valid scheme
(leading alpha, then scheme chars), drop it together with the colon. -/
def dropScheme (l : List Char) : List Char :=
  match l.findIdx? (fun c => c = ':') with
  | some i =>
    if 0 < i ∧ (l.take i).all schemeChar ∧ ((l.head?.map Char.isAlpha).getD false)
    then l.drop (i + 1) else l
  | none => l

/-- urlparse(url).netloc: after scheme removal, the text between a leading //
and the next '/', '?' or '#'; empty when there is no // part. -/
def netloc (l : List Char) : List Char :=
  let rest := dropScheme l
  if rest.take 2 = ['/', '/'] then
    (rest.drop 2).takeWhile (fun c => c ≠ '/' ∧ c ≠ '?' ∧ c ≠ '#')
  else []

/-- extract_domain (ingestion lambda, lines 32-46): netloc of the URL with a
leading www. stripped; None for a falsy URL. urlparse does not raise on
ordinary strings, so the except branch is dead here. -/
def extract_domain (url : String) : Option String :=
  if url = "" then none
  else
    let d := netloc url.data
    let d := if "www.".data.isPrefixOf d then d.drop 4 else d
    some (String.mk d)

/-- One raw Tavily result item (a JSON dict: every key may be absent). -/
structure ResultItem where
  url : Option String
  title : Option String
  content : Option String
  published_date : Option String
  score : Option Rat
deriving DecidableEq, Repr

/-- The dict built by process_content. -/
structure ProcessedItem where
  url : String
  title : String
  content : String
  source : Option String
  published_date : Option PyDateTime
  searched_at : PyDateTime
  individuals_mentioned : Option (List String)
  keywords_used : List String
  score : Option Rat
deriving DecidableEq, Repr

/-- The Z-suffix rewrite of process_content lines 62-63: if the string ends
with 'Z', replace that suffix by +00:00 before parsing. -/
def applyZ (s : String) : String :=
  if s.data.getLast? = some 'Z' then String.mk (s.data.dropLast ++ "+00:00".data)
  else s

/-- The try-block of process_content lines 60-66: parse after the Z rewrite;
none where Python catches ValueError (published_date stays None there). -/
def pubDateParse (s : String) : Option PyDateTime := fromisoformat (applyZ s)

/-- process_content (ingestion lambda, lines 48-88). The query argument is
unused by the source body and omitted. -/
def process_content (item : ResultItem) (searched_at : PyDateTime)
    (individual : String) (keywords : List String) : ProcessedItem :=
  let url := item.url.getD ""
  let published_date : Option PyDateTime :=
    match item.published_date with
    | some s => if s ≠ "" then pubDateParse s else some searched_at
    | none => some searched_at
  { url := url
    title := item.title.getD ""
    content := item.content.getD ""
    source := extract_domain url
    published_date := published_date
    searched_at := searched_at
    individuals_mentioned := if individual ≠ "" then some [individual] else none
    keywords_used := keywords
    score := item.score }

/-- Zero-padded decimal digit of n mod 10, as strftime renders digits. -/
def digitChar (n : Nat) : Char :=
  match n % 10 with
  | 0 => '0' | 1 => '1' | 2 => '2' | 3 => '3' | 4 => '4'
  | 5 => '5' | 6 => '6' | 7 => '7' | 8 => '8' | _ => '9'

/-- Two-digit zero-padded rendering (strftime %m, %d, %H, %M, %S). -/
def pad2 (n : Nat) : List Char := [digitChar (n / 10), digitChar n]

/-- Four-digit zero-padded rendering (strftime %Y). -/
def pad4 (n : Nat) : List Char :=
  [digitChar (n / 1000), digitChar (n / 100), digitChar (n / 10), digitChar n]

/-- timestamp.date().strftime of save_to_s3 line 97. -/
def date_str_chars (t : PyDateTime) : List Char := pad4 t.year ++ pad2 t.month ++ pad2 t.day

/-- timestamp.strftime of save_to_s3 line 98. -/
def timestamp_str_chars (t : PyDateTime) : List Char :=
  date_str_chars t ++ '_' :: (pad2 t.hour ++ pad2 t.minute ++ pad2 t.second)

/-- re.sub replacing every character outside a-zA-Z0-9 by an underscore
(save_to_s3 line 101). -/
def safe_individual_of (individual : String) : String :=
  String.mk (individual.data.map (fun c => if c.isAlphanum then c else '_'))

/-- The f-string of save_to_s3 line 103, as an explicit concatenation. -/
def s3_key_chars (individual : String) (t : PyDateTime) : List Char :=
  "tavily_search_results".data ++ '/' ::
    ((safe_individual_of individual).data ++ '/' ::
      (date_str_chars t ++ '/' :: (timestamp_str_chars t ++ ".json".data)))

def s3_key_for (individual : String) (t : PyDateTime) : String :=
  String.mk (s3_key_chars individual t)

/-- save_to_s3 (ingestion lambda, lines 90-117). putOk injects the outcome of
the put_object call; on failure the exception is caught, logged, and None is
returned. -/
def save_to_s3 (putOk : Bool) (_data_list : List ProcessedItem)
    (timestamp : PyDateTime) (individual : String) : Option String :=
  let key := s3_key_for individual timestamp
  if putOk then some key else none

/-- The keywords value of the invocation event: absent (default KEYWORDS),
a list of strings, or some non-list value. -/
inductive KeywordsInput
  | absent
  | strList (ks : List String)
  | notAList
deriving DecidableEq, Repr

structure IngestResponse where
  statusCode : Nat
  error : Option String
  processed_count : Option Nat
  query : Option String
deriving DecidableEq, Repr

/-- lambda_handler of the ingestion lambda (lines 119-189). External inputs:
the search results list (the Tavily call), the utcnow timestamp, whether the
API key env var is set, and whether the S3 put succeeds. The saved key that
save_to_s3 returns is discarded by the source, as it is here. -/
def ingestion_lambda_handler (event_name : Option String) (kwIn : KeywordsInput)
    (apiKeySet : Bool) (results : List ResultItem) (searched_at : PyDateTime)
    (putOk : Bool) : IngestResponse :=
  let individual? : Option String :=
    match event_name with
    | none => none
    | some n => if n = "" then none else some n
  match individual? with
  | none => ⟨400, some "Missing name parameter", none, none⟩
  | some individual =>
    let kws? : Option (List String) :=
      match kwIn with
      | .absent => some KEYWORDS
      | .strList ks => some ks
      | .notAList => none
    match kws? with
    | none => ⟨400, some "Keywords must be a list of strings", none, none⟩
    | some ks =>
      let keywords := (ks.map pyStrip).filter (fun k => k ≠ "")
      let query := pyJoin ", " keywords ++
        " and fraud related news involving " ++ individual ++ " in South Africa"
      if !apiKeySet then ⟨500, some "TAVILY_API_KEY not set", none, none⟩
      else
        let processed := results.map (fun item =>
          process_content item searched_at individual keywords)
        let _saved : Option (Option String) :=
          if processed ≠ [] then some (save_to_s3 putOk processed searched_at individual)
          else none
        ⟨200, none, some processed.length, some query⟩

/-! ## src/tavily_loader_lambda.py -/

/-- One row of the target table created by ensure_table_exists (lines 57-87).
url, title and source carry NOT NULL; id is the SERIAL key. Timestamp and
array columns are nullable. Timestamps are kept as the strings the batch file
carries (their order, where needed, is codepoint-lexicographic, which agrees
with chronological order for the fixed ISO shape the pipeline writes). -/
structure Row where
  id : Nat
  url : String
  title : String
  content : Option String
  source : String
  score : Option Rat
  published_date : Option String
  searched_at : Option String
  individuals_mentioned : Option (List String)
  keywords_used : Option (List String)
deriving DecidableEq, Repr

/-- One record of a batch file as the loader reads it: a JSON dict, every key
possibly absent (processed_data.get gives None). -/
structure DbRec where
  url : Option String
  title : Option String
  content : Option String
  source : Option String
  score : Option Rat
  published_date : Option String
  searched_at : Option String
  individuals_mentioned : Option (List String)
  keywords_used : Option (List String)
deriving DecidableEq, Repr

/-- The DO UPDATE SET list of insert_into_db lines 97-103: searched_at,
content, individuals_mentioned, keywords_used, score and source are set to the
EXCLUDED (incoming) values; id, url, title and published_date are not touched. -/
def updRow (row : Row) (so : String) (r : DbRec) : Row :=
  { row with
    searched_at := r.searched_at
    content := r.content
    individuals_mentioned := r.individuals_mentioned
    keywords_used := r.keywords_used
    score := r.score
    source := so }

/-- The inserted row of the no-conflict path: all columns from the incoming
record, id from the SERIAL sequence. -/
def freshRow (n : Nat) (u ti so : String) (r : DbRec) : Row :=
  ⟨n, u, ti, r.content, so, r.score, r.published_date, r.searched_at,
   r.individuals_mentioned, r.keywords_used⟩

/-- INSERT ... ON CONFLICT (url) DO UPDATE once the NOT NULL tuple checks have
passed: update the conflicting row in place, or append a fresh row. -/
def upsertRow (db : List Row) (u ti so : String) (r : DbRec) : List Row :=
  if db.any (fun row => row.url == u) then
    db.map (fun row => if row.url = u then updRow row so r else row)
  else db ++ [freshRow (db.length + 1) u ti so r]

/-- insert_into_db (loader, lines 89-118): executes the upsert statement and
commits. Postgres checks the NOT NULL columns (url, title, source) on the
proposed tuple before conflict arbitration, so a record missing any of them
raises whether or not the URL already exists. -/
def insert_into_db (db : List Row) (r : DbRec) : Except String (List Row) :=
  match r.url, r.title, r.source with
  | some u, some ti, some so => .ok (upsertRow db u ti so r)
  | _, _, _ => .error "null value violates not-null constraint"

/-- Whether insert_into_db succeeds for this record (db-independent). -/
def validRec (r : DbRec) : Bool := r.url.isSome && r.title.isSome && r.source.isSome

/-- The successful-path state transformer of one insert (identity on error;
used only to state folds, the control flow itself is processRecords). -/
def step (db : List Row) (r : DbRec) : List Row :=
  match insert_into_db db r with
  | .ok d => d
  | .error _ => db

/-- Folding a record list through the merge, ignoring control flow. -/
def mergeAll (db : List Row) (rs : List DbRec) : List Row := rs.foldl step db

/-- The record loop of the per-file try block (loader lines 227-232): each
record is inserted in turn; the first raising record aborts the file (the
exception propagates to the per-file handler), keeping the rows committed so
far. The Bool is whether the loop (and hence the file) completed. -/
def processRecords (db : List Row) : List DbRec → List Row × Bool
  | [] => (db, true)
  | r :: rs =>
    match insert_into_db db r with
    | .ok d => processRecords d rs
    | .error _ => (db, false)

/-- A batch file as the loader sees it after s3.get_object + json.loads:
reading or parsing may fail, otherwise the JSON is an array or a single dict. -/
inductive FileContent
  | bad
  | arr (recs : List DbRec)
  | one (rec : DbRec)
deriving DecidableEq, Repr

/-- The per-file try block of lambda_handler lines 222-239: a read/parse
failure, or an insert failure inside the file, is caught; the Bool reports
whether processed_count is incremented for this file. -/
def processOne (db : List Row) (f : FileContent) : List Row × Bool :=
  match f with
  | .bad => (db, false)
  | .arr recs => processRecords db recs
  | .one r =>
    match insert_into_db db r with
    | .ok d => (d, true)
    | .error _ => (db, false)

/-- The driver loop over the selected files (lines 218-239), threading the
table state and processed_count. -/
def driveLoop (db : List Row) (count : Nat) : List FileContent → List Row × Nat
  | [] => (db, count)
  | f :: fs =>
    let (d, ok) := processOne db f
    driveLoop d (if ok then count + 1 else count) fs

def driveFiles (db : List Row) (files : List FileContent) : List Row × Nat :=
  driveLoop db 0 files

/-- Column names of the table that ensure_table_exists creates (lines 60-72). -/
def tableColumns : List String :=
  ["id", "url", "title", "content", "source", "score", "published_date",
   "searched_at", "individuals_mentioned", "keywords_used"]

/-- The timestamp columns of that schema, by name; any other name (including
the scanned_at that get_latest_s3_key queries) is an undefined column. -/
def timestampColumn? (col : String) : Option (Row → Option String) :=
  if col = "searched_at" then some (fun row => row.searched_at)
  else if col = "published_date" then some (fun row => row.published_date)
  else none

/-- WHERE individuals_mentioned @> ARRAY[individual]: a NULL array matches
nothing. -/
def mentionsFilter (db : List Row) (individual : String) : List Row :=
  db.filter (fun row => (row.individuals_mentioned.getD []).contains individual)

/-- MAX over the non-null values of a timestamp column (codepoint order, which
is chronological for the fixed format); NULL on an empty set. -/
def maxTimestamp (vals : List String) : Option String :=
  vals.foldl (fun acc v =>
    match acc with
    | none => some v
    | some m => some (if lexLt m.data v.data then v else m)) none

/-- SELECT MAX(col) FROM table WHERE individuals_mentioned @> ARRAY[ind]:
errors when col is not a (timestamp) column of the schema. -/
def runMaxQuery (db : List Row) (col : String) (individual : String) :
    Except String (Option String) :=
  match timestampColumn? col with
  | some proj => .ok (maxTimestamp ((mentionsFilter db individual).filterMap proj))
  | none => .error ("column " ++ col ++ " does not exist")

/-- strftime %Y%m%d on a stored ISO timestamp string: first ten characters
with the dashes removed. -/
def yyyymmddOf (ts : String) : String :=
  String.mk ((ts.data.take 10).filter (fun c => c ≠ '-'))

/-- get_latest_s3_key (loader, lines 122-139). The query names the column
scanned_at (line 130) although the schema column is searched_at, so against
the table of ensure_table_exists the query always raises undefined-column;
the except branch logs and falls through to return None. A NULL max (no rows)
also returns None via the `if result and result[0]` guard. -/
def get_latest_s3_key (db : List Row) (individual : String) : Option String :=
  match runMaxQuery db "scanned_at" individual with
  | .ok (some ts) => some (yyyymmddOf ts)
  | .ok none => none
  | .error _ => none

/-- Python rendering of the watermark inside the f-string of line 214:
None prints as the text None. -/
def pyStrOfOpt : Option String → String
  | some s => s
  | none => "None"

/-- The boundary key built by lambda_handler line 214. -/
def loaderLastKey (db : List Row) (name : String) : String :=
  name ++ "/" ++ pyStrOfOpt (get_latest_s3_key db name) ++ "/"

/-- Whether the generator body keeps a key: `if last_key and key <= last_key:
continue` (fetch_new_files lines 160-164); last_key falsy (None or empty)
keeps everything. -/
def keepKey (last_key : Option String) (key : String) : Bool :=
  match last_key with
  | none => true
  | some lk => if lk = "" then true else !(pyLeS key lk)

/-- fetch_new_files (loader, lines 141-164) over the pages the paginator
returns: one logical stream of the kept keys. A page without Contents is the
empty list. -/
def fetch_new_files (pages : List (List String)) (last_key : Option String) :
    List String :=
  (pages.map (fun page => page.filter (keepKey last_key))).flatten

/-- The StartAfter parameter actually passed: only set when last_key is
truthy (lines 150-152). -/
def startAfterOf : Option String → Option String
  | none => none
  | some lk => if lk = "" then none else some lk

/-- The S3 ListObjectsV2 contract: keys of the bucket under the given prefix,
strictly after StartAfter when present (S3 returns them in codepoint order;
bucketKeys is that listing). -/
def s3Listing (bucketKeys : List String) (keyPrefixArg : String)
    (startAfter : Option String) : List String :=
  bucketKeys.filter (fun k =>
    keyPrefixArg.data.isPrefixOf k.data &&
      match startAfter with
      | none => true
      | some sa => lexLt sa.data k.data)

/-- fetch_new_files composed with the real listing (pagination flattened). -/
def fetch_new_files_all (bucketKeys : List String) (keyPrefixArg : String)
    (last_key : Option String) : List String :=
  (s3Listing bucketKeys keyPrefixArg (startAfterOf last_key)).filter (keepKey last_key)

/-- The name-resolution block of the loader lambda_handler (lines 166-204),
after the two event shapes have been reduced to an optional explicit name and
an optional object key: a truthy key with at least three path segments
overrides the name with segment 1; a truthy name then has its underscores
mapped back to spaces; a missing name is the 400 path (none here). -/
def resolveName (event_name event_key : Option String) : Option String :=
  let name1 : Option String :=
    match event_key with
    | some k =>
      if k ≠ "" then
        let parts := splitChar '/' k.data
        if parts.length ≥ 3 then some (String.mk (parts.getD 1 [])) else event_name
      else event_name
    | none => event_name
  match name1 with
  | none => none
  | some n =>
    let n2 := if n.data.contains '_' then String.mk (joinChar ' ' (splitChar '_' n.data)) else n
    if n2 = "" then none else some n2

structure LoaderResponse where
  statusCode : Nat
  error : Option String
  processed_files : Option Nat
deriving DecidableEq, Repr

/-- lambda_handler of the loader (lines 166-257). External inputs: the
resolved event fields, whether the DB connection succeeds (connOk; its failure
is the outer 500 path), the current table, the bucket listing with each key's
content (a key whose read or parse raises maps to FileContent.bad; a key
missing from the bucket also fails its get_object). s3Root is the S3_PREFIX
environment value. Returns the response and the final table. -/
def loader_lambda_handler (event_name event_key : Option String) (connOk : Bool)
    (s3Root : String) (db : List Row) (bucket : List (String × FileContent)) :
    LoaderResponse × List Row :=
  match resolveName event_name event_key with
  | none => (⟨400, some "No name provided in event", none⟩, db)
  | some name =>
    if connOk then
      let last_key := loaderLastKey db name
      let keys := fetch_new_files_all (bucket.map (fun p => p.1)) s3Root (some last_key)
      let files := keys.map (fun k =>
        ((bucket.find? (fun p => p.1 == k)).map (fun p => p.2)).getD .bad)
      (⟨200, none, some (driveFiles db files).2⟩, (driveFiles db files).1)
    else (⟨500, some "connection failed", none⟩, db)

/-! ## Derived notions used by the verification -/

/-- The effect of one record's upsert on a single existing row: the conflict
update when the row carries the record's URL, identity otherwise (and identity
for a record whose insert raises). -/
def recFun (r : DbRec) : Row → Row :=
  match r.url, r.title, r.source with
  | some u, some _, some so => fun row => if row.url = u then updRow row so r else row
  | _, _, _ => id

/-- Composite effect of a record list on a single row. -/
def applyRecFuns (rs : List DbRec) (row : Row) : Row :=
  rs.foldl (fun acc r => recFun r acc) row

/-- Whether some row of the table carries this URL. -/
def urlPresent (db : List Row) (u : String) : Bool := db.any (fun row => row.url == u)

/-- Whether this record's upsert would take the conflict path (records whose
insert raises are vacuously counted). -/
def recPresent (db : List Row) (r : DbRec) : Bool :=
  match r.url, r.title, r.source with
  | some u, some _, some _ => urlPresent db u
  | _, _, _ => true

/-- Whether a valid record carries the given URL. -/
def recTargets (r : DbRec) (u : String) : Bool :=
  match r.url, r.title, r.source with
  | some u2, some _, some _ => u2 == u
  | _, _, _ => false

/-- Whether the per-file try block completes for this file content. -/
def fileOk : FileContent → Bool
  | .bad => false
  | .arr recs => recs.all validRec
  | .one r => validRec r

/-! ## Concrete sample inputs used by counterexamples and witnesses -/

/-- First sighting of a URL, mentioning individual A with keyword fraud. -/
def recA : DbRec :=
  ⟨some "https://ex.com/a", some "T", some "c1", some "ex.com", some 1,
   some "2023-12-31T10:00:00", some "2024-01-01T00:00:00", some ["A"], some ["fraud"]⟩

/-- Second sighting of the same URL, mentioning individual B with keyword
bribery. -/
def recB : DbRec :=
  ⟨some "https://ex.com/a", some "T", some "c2", some "ex.com", some 2,
   some "2023-12-31T10:00:00", some "2024-01-02T00:00:00", some ["B"], some ["bribery"]⟩

/-- A well-formed sighting of a second URL. -/
def recC : DbRec :=
  ⟨some "https://ex.com/b", some "U", some "c3", some "ex.com", none,
   none, some "2024-01-02T00:00:00", some ["A"], some ["graft"]⟩

/-- A malformed record: the url key is missing. -/
def recBad : DbRec :=
  ⟨none, some "T", some "c", some "ex.com", none, none,
   some "2024-01-02T00:00:00", some ["A"], some ["fraud"]⟩

/-- The row recA inserts into an empty table. -/
def rowA : Row :=
  ⟨1, "https://ex.com/a", "T", some "c1", "ex.com", some 1,
   some "2023-12-31T10:00:00", some "2024-01-01T00:00:00", some ["A"], some ["fraud"]⟩

/-- The listing of the spec's ordering example. -/
def exKeys : List String :=
  ["ind/20240101/a.json", "ind/20240102/b.json", "ind/20240103/c.json"]

/-- A result item whose published_date string does not parse. -/
def itemBadDate : ResultItem :=
  ⟨some "https://x.com/a", some "T", some "c", some "not-a-date", none⟩

/-- A result item with no published_date. -/
def itemNoDate : ResultItem :=
  ⟨some "https://x.com/a", some "T", some "c", none, none⟩

/-- A sample search timestamp. -/
def t0 : PyDateTime := ⟨2024, 1, 1, 0, 0, 0, 0, none⟩

/-! ## Basic lemmas about the merge step -/

theorem insert_of_valid (db : List Row) (r : DbRec) (u ti so : String)
    (hu : r.url = some u) (ht : r.title = some ti) (hs : r.source = some so) :
    insert_into_db db r = .ok (upsertRow db u ti so r) := by
  simp [insert_into_db, hu, ht, hs]

theorem insert_of_invalid (db : List Row) (r : DbRec) (h : validRec r = false) :
    ∃ msg, insert_into_db db r = .error msg := by
  refine ⟨"null value violates not-null constraint", ?_⟩
  rcases hu : r.url with _ | u <;> rcases ht : r.title with _ | ti <;>
    rcases hs : r.source with _ | so <;>
      simp [insert_into_db, hu, ht, hs]
  rw [validRec, hu, ht, hs] at h
  simp at h

theorem validRec_elim (r : DbRec) (h : validRec r = true) :
    ∃ u ti so, r.url = some u ∧ r.title = some ti ∧ r.source = some so := by
  rcases hu : r.url with _ | u <;> rcases ht : r.title with _ | ti <;>
    rcases hs : r.source with _ | so <;>
      simp [validRec, hu, ht, hs] at h
  exact ⟨u, ti, so, rfl, rfl, rfl⟩

theorem step_of_valid (db : List Row) (r : DbRec) (h : validRec r = true) :
    insert_into_db db r = .ok (step db r) := by
  obtain ⟨u, ti, so, hu, ht, hs⟩ := validRec_elim r h
  rw [insert_of_valid db r u ti so hu ht hs]
  rw [step, insert_of_valid db r u ti so hu ht hs]

theorem step_of_invalid (db : List Row) (r : DbRec) (h : validRec r = false) :
    step db r = db := by
  obtain ⟨msg, hmsg⟩ := insert_of_invalid db r h
  rw [step, hmsg]

theorem mergeAll_nil (db : List Row) : mergeAll db [] = db := rfl

theorem mergeAll_cons (db : List Row) (r : DbRec) (rs : List DbRec) :
    mergeAll db (r :: rs) = mergeAll (step db r) rs := rfl

theorem mergeAll_append_one (db : List Row) (rs : List DbRec) (r : DbRec) :
    mergeAll db (rs ++ [r]) = step (mergeAll db rs) r := by
  simp [mergeAll, List.foldl_append]

/-- The per-file record loop in closed form: it merges the longest valid
prefix and reports whether every record was valid. -/
theorem processRecords_eq (db : List Row) (rs : List DbRec) :
    processRecords db rs = (mergeAll db (rs.takeWhile validRec), rs.all validRec) := by
  induction rs generalizing db with
  | nil => rfl
  | cons r t ih =>
    cases hv : validRec r with
    | true =>
      rw [processRecords, step_of_valid db r hv]
      simp [List.takeWhile_cons, List.all_cons, hv, mergeAll_cons, ih]
    | false =>
      obtain ⟨msg, hmsg⟩ := insert_of_invalid db r hv
      rw [processRecords, hmsg]
      simp [List.takeWhile_cons, List.all_cons, hv, mergeAll_nil]

/-! ## Claim C2: the watermark resolver -/

/-- Claim C2 (code_bug): the spec says get_latest_s3_key returns the most
recent searched_at date among records mentioning the individual, with errors
degrading to None. The query of line 130 names the column scanned_at, which
the schema of ensure_table_exists does not have, so the query always raises
undefined-column and the resolver returns None for every table state and
individual, never a date. -/
theorem c2_scanned_at_column_bug :
    ("scanned_at" ∉ tableColumns) ∧
      ∀ (db : List Row) (individual : String), get_latest_s3_key db individual = none :=
  ⟨by decide, fun _ _ => rfl⟩

/-! ## Claim C1: replacement, not union, of the mention and keyword sets -/

/-- Claim C1 counterexample: upserting recA (individual A, keyword fraud) into
an empty table and then recB (same URL, individual B, keyword bribery) leaves
individuals_mentioned = [B] and keywords_used = [bribery] — the incoming
values replace the stored sets, they are not unioned, so the final mention set
is not {A, B}. -/
theorem c1_counterexample :
    ((insert_into_db [] recA).toOption.bind
        (fun d => (insert_into_db d recB).toOption)) =
      some [⟨1, "https://ex.com/a", "T", some "c2", "ex.com", some 2,
             some "2023-12-31T10:00:00", some "2024-01-02T00:00:00",
             some ["B"], some ["bribery"]⟩] ∧
      (some ["B"] : Option (List String)) ≠ some ["A", "B"] := by
  constructor
  · rfl
  · decide

/-! ## Claim C3 counterexample: the ordering example of the spec -/

/-- Claim C3 counterexample: with keys ind/20240101/..., ind/20240102/...,
ind/20240103/... and watermark boundary ind/20240102/, the selector yields the
second AND third keys (the boundary is a strict lexicographic lower bound and
the watermark-date key extends it), not exactly the third key as claimed. -/
theorem c3_counterexample :
    fetch_new_files_all exKeys "" (some "ind/20240102/") =
      ["ind/20240102/b.json", "ind/20240103/c.json"] ∧
      (["ind/20240102/b.json", "ind/20240103/c.json"] ≠ ["ind/20240103/c.json"]) := by
  constructor
  · rfl
  · decide

/-! ## Claim C4 counterexample: a malformed record aborts its file -/

/-- Claim C4 counterexample: in the 3-record batch [recA, recBad, recC] with
the malformed record (missing url) in the middle, the record loop commits only
recA (1 record, not the 2 well-formed ones), the file does not complete, and
the driver counts 0 processed files for it (processing does not continue with
recC). -/
theorem c4_counterexample :
    processRecords [] [recA, recBad, recC] = ([rowA], false) ∧
      (driveFiles [] [.arr [recA, recBad, recC]]).2 = 0 ∧
      [rowA].length = 1 ∧ (1 : Nat) ≠ 2 := by
  refine ⟨rfl, rfl, rfl, by decide⟩

/-! ## Claim C5 counterexample: parse failure leaves published_date null -/

/-- Claim C5 counterexample: for a record whose published_date string does not
parse, process_content stores published_date = None even though the
searched_at fallback exists (searched_at is stored beside it) — it does not
fall back on parse failure. -/
theorem c5_counterexample :
    (process_content itemBadDate t0 "A" ["k"]).published_date = none ∧
      (process_content itemBadDate t0 "A" ["k"]).searched_at = t0 ∧
      (none : Option PyDateTime) ≠ some t0 := by
  refine ⟨rfl, rfl, by decide⟩

/-! ## The upsert as a per-row map: lemmas toward idempotence -/

theorem recFun_eq_of_valid (r : DbRec) (u ti so : String)
    (hu : r.url = some u) (ht : r.title = some ti) (hs : r.source = some so) :
    recFun r = fun row => if row.url = u then updRow row so r else row := by
  simp [recFun, hu, ht, hs]

theorem recFun_eq_of_invalid (r : DbRec) (h : validRec r = false) :
    recFun r = id := by
  rcases hu : r.url with _ | u <;> rcases ht : r.title with _ | ti <;>
    rcases hs : r.source with _ | so <;>
      simp [recFun, hu, ht, hs]
  rw [validRec, hu, ht, hs] at h
  simp at h

theorem updRow_id (row : Row) (so : String) (r : DbRec) : (updRow row so r).id = row.id := rfl

theorem updRow_url (row : Row) (so : String) (r : DbRec) : (updRow row so r).url = row.url := rfl

theorem updRow_title (row : Row) (so : String) (r : DbRec) :
    (updRow row so r).title = row.title := rfl

theorem updRow_published_date (row : Row) (so : String) (r : DbRec) :
    (updRow row so r).published_date = row.published_date := rfl

/-- recFun never changes id, url, title or published_date of a row. -/
theorem recFun_immut (r : DbRec) (row : Row) :
    (recFun r row).id = row.id ∧ (recFun r row).url = row.url ∧
      (recFun r row).title = row.title ∧
      (recFun r row).published_date = row.published_date := by
  rcases hu : r.url with _ | u <;> rcases ht : r.title with _ | ti <;>
    rcases hs : r.source with _ | so <;> simp [recFun, hu, ht, hs] <;>
      split <;> simp [updRow]

theorem applyRecFuns_nil (row : Row) : applyRecFuns [] row = row := rfl

theorem applyRecFuns_cons (r : DbRec) (rs : List DbRec) (row : Row) :
    applyRecFuns (r :: rs) row = applyRecFuns rs (recFun r row) := rfl

theorem applyRecFuns_append_one (rs : List DbRec) (r : DbRec) (row : Row) :
    applyRecFuns (rs ++ [r]) row = recFun r (applyRecFuns rs row) := by
  simp [applyRecFuns, List.foldl_append]

/-- The composite of recFuns never changes id, url, title or published_date. -/
theorem applyRecFuns_immut (rs : List DbRec) (row : Row) :
    (applyRecFuns rs row).id = row.id ∧ (applyRecFuns rs row).url = row.url ∧
      (applyRecFuns rs row).title = row.title ∧
      (applyRecFuns rs row).published_date = row.published_date := by
  induction rs generalizing row with
  | nil => exact ⟨rfl, rfl, rfl, rfl⟩
  | cons r t ih =>
    rw [applyRecFuns_cons]
    obtain ⟨h1, h2, h3, h4⟩ := ih (recFun r row)
    obtain ⟨g1, g2, g3, g4⟩ := recFun_immut r row
    exact ⟨h1.trans g1, h2.trans g2, h3.trans g3, h4.trans g4⟩

theorem any_url_map (db : List Row) (f : Row → Row) (u : String)
    (hf : ∀ x, (f x).url = x.url) :
    (db.map f).any (fun row => row.url == u) = db.any (fun row => row.url == u) := by
  induction db with
  | nil => rfl
  | cons x xs ih => simp [List.any_cons, hf x, ih]

theorem recPresent_of_valid (db : List Row) (r : DbRec) (u ti so : String)
    (hu : r.url = some u) (ht : r.title = some ti) (hs : r.source = some so) :
    recPresent db r = urlPresent db u := by
  simp [recPresent, hu, ht, hs]

theorem recPresent_of_invalid (db : List Row) (r : DbRec) (h : validRec r = false) :
    recPresent db r = true := by
  rcases hu : r.url with _ | u <;> rcases ht : r.title with _ | ti <;>
    rcases hs : r.source with _ | so <;>
      simp [recPresent, hu, ht, hs]
  rw [validRec, hu, ht, hs] at h
  simp at h

/-- Once a record's upsert can only update, the step is a per-row map. -/
theorem step_eq_map_of_recPresent (db : List Row) (r : DbRec)
    (h : recPresent db r = true) : step db r = db.map (recFun r) := by
  cases hv : validRec r with
  | true =>
    obtain ⟨u, ti, so, hu, ht, hs⟩ := validRec_elim r hv
    rw [recPresent_of_valid db r u ti so hu ht hs] at h
    rw [step, insert_of_valid db r u ti so hu ht hs, upsertRow,
      recFun_eq_of_valid r u ti so hu ht hs]
    rw [urlPresent] at h
    simp [h]
  | false =>
    rw [step_of_invalid db r hv, recFun_eq_of_invalid r hv, List.map_id]

/-- URL presence survives any step. -/
theorem urlPresent_step_mono (db : List Row) (u : String) (r : DbRec)
    (h : urlPresent db u = true) : urlPresent (step db r) u = true := by
  cases hv : validRec r with
  | true =>
    obtain ⟨u2, ti2, so2, hu, ht, hs⟩ := validRec_elim r hv
    rw [step, insert_of_valid db r u2 ti2 so2 hu ht hs, upsertRow]
    by_cases hp : db.any (fun row => row.url == u2)
    · rw [if_pos hp, urlPresent, any_url_map]
      · exact h
      · intro x
        by_cases hx : x.url = u2 <;> simp [hx, updRow]
    · rw [if_neg hp, urlPresent, List.any_append]
      rw [urlPresent] at h
      simp [h]
  | false => rw [step_of_invalid db r hv]; exact h

theorem recPresent_step_mono (db : List Row) (r r2 : DbRec)
    (h : recPresent db r = true) : recPresent (step db r2) r = true := by
  cases hv : validRec r with
  | true =>
    obtain ⟨u, ti, so, hu, ht, hs⟩ := validRec_elim r hv
    rw [recPresent_of_valid db r u ti so hu ht hs] at h
    rw [recPresent_of_valid (step db r2) r u ti so hu ht hs]
    exact urlPresent_step_mono db u r2 h
  | false => exact recPresent_of_invalid _ r hv

/-- A record's own URL is present right after its step. -/
theorem recPresent_step_self (db : List Row) (r : DbRec) :
    recPresent (step db r) r = true := by
  cases hv : validRec r with
  | true =>
    obtain ⟨u, ti, so, hu, ht, hs⟩ := validRec_elim r hv
    rw [recPresent_of_valid (step db r) r u ti so hu ht hs]
    rw [step, insert_of_valid db r u ti so hu ht hs, upsertRow]
    by_cases hp : db.any (fun row => row.url == u)
    · rw [if_pos hp, urlPresent, any_url_map]
      · exact hp
      · intro x
        by_cases hx : x.url = u <;> simp [hx, updRow]
    · rw [if_neg hp, urlPresent, List.any_append]
      simp [freshRow, List.any_cons]
  | false => exact recPresent_of_invalid _ r hv

theorem recPresent_mergeAll_mono (rs : List DbRec) (db : List Row) (r : DbRec)
    (h : recPresent db r = true) : recPresent (mergeAll db rs) r = true := by
  induction rs generalizing db with
  | nil => exact h
  | cons r2 t ih => exact ih (step db r2) (recPresent_step_mono db r r2 h)

/-- Every record of a batch has its URL present in the merged table. -/
theorem mergeAll_present (rs : List DbRec) (db : List Row) :
    ∀ r ∈ rs, recPresent (mergeAll db rs) r = true := by
  induction rs generalizing db with
  | nil => intro r hr; cases hr
  | cons r2 t ih =>
    intro r hr
    rcases List.mem_cons.mp hr with hr | hr
    · subst hr
      rw [mergeAll_cons]
      exact recPresent_mergeAll_mono t (step db r) r (recPresent_step_self db r)
    · rw [mergeAll_cons]
      exact ih (step db r2) r hr

theorem map_id_of_mem {α : Type} (l : List α) (f : α → α) (h : ∀ x ∈ l, f x = x) :
    l.map f = l := by
  induction l with
  | nil => rfl
  | cons x xs ih =>
    rw [List.map_cons, h x (List.mem_cons_self x xs),
      ih (fun y hy => h y (List.mem_cons_of_mem x hy))]

/-- When every record of the batch is already present, the whole merge is a
per-row map by the composite recFun. -/
theorem mergeAll_map_of_present (rs : List DbRec) (db : List Row)
    (h : ∀ r ∈ rs, recPresent db r = true) :
    mergeAll db rs = db.map (applyRecFuns rs) := by
  induction rs generalizing db with
  | nil => exact (map_id_of_mem db (applyRecFuns []) (fun row _ => rfl)).symm
  | cons r t ih =>
    rw [mergeAll_cons, step_eq_map_of_recPresent db r (h r (List.mem_cons_self r t))]
    rw [ih (db.map (recFun r)) (fun r2 hr2 => by
      rw [← step_eq_map_of_recPresent db r (h r (List.mem_cons_self r t))]
      exact recPresent_step_mono db r2 r (h r2 (List.mem_cons_of_mem r hr2)))]
    rw [List.map_map]
    rfl

theorem applyRecFuns_of_no_target (rs : List DbRec) (u : String) (z : Row)
    (hz : z.url = u) (h : ∀ r ∈ rs, recTargets r u = false) :
    applyRecFuns rs z = z := by
  induction rs with
  | nil => rfl
  | cons r t ih =>
    rw [applyRecFuns_cons]
    have hrz : recFun r z = z := by
      cases hv : validRec r with
      | true =>
        obtain ⟨u2, ti2, so2, hu, ht, hs⟩ := validRec_elim r hv
        have hT := h r (List.mem_cons_self r t)
        rw [recTargets, hu, ht, hs] at hT
        simp at hT
        rw [recFun_eq_of_valid r u2 ti2 so2 hu ht hs]
        simp only []
        rw [if_neg]
        rw [hz]
        exact fun he => hT he.symm
      | false => rw [recFun_eq_of_invalid r hv]; rfl
    rw [hrz]
    exact ih (fun r2 hr2 => h r2 (List.mem_cons_of_mem r hr2))

theorem recTargets_false_of_absent (t : List DbRec) (db : List Row) (u : String)
    (hp : urlPresent (mergeAll db t) u = false) :
    ∀ r ∈ t, recTargets r u = false := by
  intro r hr
  cases hT : recTargets r u with
  | false => rfl
  | true =>
    exfalso
    rcases hu : r.url with _ | u2 <;> rcases ht : r.title with _ | ti2 <;>
      rcases hs : r.source with _ | so2 <;> rw [recTargets, hu, ht, hs] at hT <;>
        simp at hT
    have hpres := mergeAll_present t db r hr
    rw [recPresent_of_valid _ r u2 ti2 so2 hu ht hs, hT] at hpres
    rw [hpres] at hp
    cases hp

theorem updRow_congr (x y : Row) (so : String) (r : DbRec)
    (hid : x.id = y.id) (hurl : x.url = y.url) (hti : x.title = y.title)
    (hpd : x.published_date = y.published_date) : updRow x so r = updRow y so r := by
  simp [updRow, hid, hurl, hti, hpd]

theorem updRow_fresh (n : Nat) (u ti so : String) (r : DbRec) :
    updRow (freshRow n u ti so r) so r = freshRow n u ti so r := rfl

theorem urlPresent_false_mem (db : List Row) (u : String)
    (hp : urlPresent db u = false) : ∀ row ∈ db, row.url ≠ u := by
  intro row hrow
  rw [urlPresent] at hp
  simp only [List.any_eq_false] at hp
  have := hp row hrow
  simpa using this

/-- One valid record's step is exactly the upsert. -/
theorem step_eq_upsert (db : List Row) (r : DbRec) (u ti so : String)
    (hu : r.url = some u) (ht : r.title = some ti) (hs : r.source = some so) :
    step db r = upsertRow db u ti so r := by
  rw [step, insert_of_valid db r u ti so hu ht hs]

/-- Every row of the merged table is a fixed point of the batch's composite
per-row effect: the stored mutable fields already equal the last write of the
batch, and the preserved fields are never touched. -/
theorem mergeAll_fix (db : List Row) (rs : List DbRec) :
    ∀ row ∈ mergeAll db rs, applyRecFuns rs row = row := by
  induction rs using List.reverseRecOn with
  | nil => intro row _; rfl
  | append_singleton t r ih =>
    intro row hrow
    rw [mergeAll_append_one] at hrow
    rw [applyRecFuns_append_one]
    cases hv : validRec r with
    | false =>
      rw [step_of_invalid _ r hv] at hrow
      rw [recFun_eq_of_invalid r hv]
      exact ih row hrow
    | true =>
      obtain ⟨u, ti, so, hu, ht, hs⟩ := validRec_elim r hv
      rw [step_eq_upsert _ r u ti so hu ht hs, upsertRow] at hrow
      rw [recFun_eq_of_valid r u ti so hu ht hs]
      simp only []
      cases hp : (mergeAll db t).any (fun x => x.url == u) with
      | true =>
        rw [if_pos hp] at hrow
        obtain ⟨row0, hrow0, hmap⟩ := List.mem_map.mp hrow
        subst hmap
        by_cases hurl : row0.url = u
        · rw [if_pos hurl]
          obtain ⟨h1, h2, h3, h4⟩ := applyRecFuns_immut t (updRow row0 so r)
          rw [if_pos ((h2.trans (updRow_url row0 so r)).trans hurl)]
          exact updRow_congr _ row0 so r (h1.trans (updRow_id row0 so r))
            (h2.trans (updRow_url row0 so r)) (h3.trans (updRow_title row0 so r))
            (h4.trans (updRow_published_date row0 so r))
        · rw [if_neg hurl]
          rw [ih row0 hrow0, if_neg hurl]
      | false =>
        rw [if_neg (by simp [hp])] at hrow
        rcases List.mem_append.mp hrow with hrow | hrow
        · rw [ih row hrow]
          rw [if_neg (urlPresent_false_mem (mergeAll db t) u
            (show urlPresent (mergeAll db t) u = false from hp) row hrow)]
        · have hrowf : row = freshRow ((mergeAll db t).length + 1) u ti so r := by
            simpa using hrow
          subst hrowf
          rw [applyRecFuns_of_no_target t u _ rfl
            (recTargets_false_of_absent t db u
              (show urlPresent (mergeAll db t) u = false from hp))]
          rw [if_pos (show (freshRow ((mergeAll db t).length + 1) u ti so r).url = u
            from rfl)]
          exact updRow_fresh _ u ti so r

/-- Re-merging a batch into the table it already produced is the identity. -/
theorem mergeAll_idem (db : List Row) (rs : List DbRec) :
    mergeAll (mergeAll db rs) rs = mergeAll db rs := by
  rw [mergeAll_map_of_present rs (mergeAll db rs) (mergeAll_present rs db)]
  exact map_id_of_mem _ _ (mergeAll_fix db rs)

/-! ## Claim C6: idempotence of a batch file's merges -/

/-- Claim C6 (confirmed): running one batch file's record loop twice from an
empty table gives exactly the same result (final rows and completion flag) as
running it once. With the source's replacement semantics this holds because
every field update is an absolute write and the replay only updates rows that
already carry the batch's last-written values; it holds even when the file
aborts at a malformed record, since the abort point does not depend on the
table state. -/
theorem c6_batch_merge_idempotent (rs : List DbRec) :
    processRecords (processRecords [] rs).1 rs = processRecords [] rs := by
  rw [processRecords_eq, processRecords_eq]
  exact congrArg (fun d => (d, rs.all validRec)) (mergeAll_idem [] (rs.takeWhile validRec))

/-! ## Lemmas about find? over the conflict update -/

theorem find?_map_url (db : List Row) (f : Row → Row) (u : String)
    (hf : ∀ x, (f x).url = x.url) :
    (db.map f).find? (fun x => x.url == u) = (db.find? (fun x => x.url == u)).map f := by
  induction db with
  | nil => rfl
  | cons x xs ih =>
    rw [List.map_cons, List.find?_cons, List.find?_cons]
    cases hx : (x.url == u) with
    | true => simp [hf x, hx]
    | false => simp [hf x, hx, ih]

theorem any_of_find? (db : List Row) (p : Row → Bool) (row : Row)
    (h : db.find? p = some row) : db.any p = true := by
  induction db with
  | nil => cases h
  | cons x xs ih =>
    rw [List.find?_cons] at h
    rw [List.any_cons]
    cases hx : p x with
    | true => rfl
    | false =>
      rw [hx] at h
      simp [ih h]

theorem find?_beq_url (db : List Row) (u : String) (row : Row)
    (h : db.find? (fun x => x.url == u) = some row) : row.url = u := by
  have := List.find?_some h
  simpa using this

/-! ## Claim C7: the conflict update's frame -/

/-- Claim C7 (confirmed): when an upsert hits an existing record (same URL),
the stored record keeps its id, url, title and published_date unchanged; only
the mutable fields are rewritten. -/
theorem c7_conflict_preserves_immutable_fields (db : List Row) (r : DbRec)
    (u ti so : String) (row : Row)
    (hu : r.url = some u) (ht : r.title = some ti) (hs : r.source = some so)
    (hrow : db.find? (fun x => x.url == u) = some row) :
    insert_into_db db r =
        .ok (db.map (fun x => if x.url = u then updRow x so r else x)) ∧
      (db.map (fun x => if x.url = u then updRow x so r else x)).find?
          (fun x => x.url == u) = some (updRow row so r) ∧
      (updRow row so r).id = row.id ∧ (updRow row so r).url = row.url ∧
      (updRow row so r).title = row.title ∧
      (updRow row so r).published_date = row.published_date := by
  have hany := any_of_find? db _ row hrow
  refine ⟨?_, ?_, rfl, rfl, rfl, rfl⟩
  · rw [insert_of_valid db r u ti so hu ht hs, upsertRow, if_pos hany]
  · rw [find?_map_url db _ u (fun x => by by_cases hx : x.url = u <;> simp [hx, updRow])]
    rw [hrow, Option.map_some', if_pos (find?_beq_url db u row hrow)]

/-- Witness for C7 at a concrete table and record. -/
theorem c7_conflict_preserves_immutable_fields_witness :
    ([rowA].map (fun x => if x.url = "https://ex.com/a" then updRow x "ex.com" recB else x)).find?
        (fun x => x.url == "https://ex.com/a") = some (updRow rowA "ex.com" recB) ∧
      (updRow rowA "ex.com" recB).published_date = rowA.published_date :=
  ⟨(c7_conflict_preserves_immutable_fields [rowA] recB "https://ex.com/a" "T" "ex.com"
      rowA rfl rfl rfl (by decide)).2.1,
   (c7_conflict_preserves_immutable_fields [rowA] recB "https://ex.com/a" "T" "ex.com"
      rowA rfl rfl rfl (by decide)).2.2.2.2.2⟩

/-! ## Claim C1, amended: the incoming sets replace the stored sets -/

/-- Claim C1 amended (the counterexample forces replacement in place of
union): when an upsert hits an existing record, the stored
individuals_mentioned and keywords_used become exactly the incoming values;
nothing is unioned. After batches mentioning A then B the mention set is {B}. -/
theorem c1_amended_sets_replaced (db : List Row) (r : DbRec)
    (u ti so : String) (row : Row)
    (hu : r.url = some u) (ht : r.title = some ti) (hs : r.source = some so)
    (hrow : db.find? (fun x => x.url == u) = some row) :
    insert_into_db db r =
        .ok (db.map (fun x => if x.url = u then updRow x so r else x)) ∧
      (db.map (fun x => if x.url = u then updRow x so r else x)).find?
          (fun x => x.url == u) = some (updRow row so r) ∧
      (updRow row so r).individuals_mentioned = r.individuals_mentioned ∧
      (updRow row so r).keywords_used = r.keywords_used := by
  have hany := any_of_find? db _ row hrow
  refine ⟨?_, ?_, rfl, rfl⟩
  · rw [insert_of_valid db r u ti so hu ht hs, upsertRow, if_pos hany]
  · rw [find?_map_url db _ u (fun x => by by_cases hx : x.url = u <;> simp [hx, updRow])]
    rw [hrow, Option.map_some', if_pos (find?_beq_url db u row hrow)]

/-- Witness for the amended C1 at a concrete table and record: the mention set
after the B sighting is exactly the incoming [B]. -/
theorem c1_amended_sets_replaced_witness :
    (updRow rowA "ex.com" recB).individuals_mentioned = some ["B"] ∧
      (updRow rowA "ex.com" recB).keywords_used = some ["bribery"] := by
  have h := c1_amended_sets_replaced [rowA] recB "https://ex.com/a" "T" "ex.com"
    rowA rfl rfl rfl (by decide)
  exact ⟨h.2.2.1.trans (by decide), h.2.2.2.trans (by decide)⟩

/-! ## split/join lemmas for the key round trip and name resolution -/

theorem splitChar_ne_nil (sep : Char) (l : List Char) : splitChar sep l ≠ [] := by
  cases l with
  | nil => simp [splitChar]
  | cons c rest =>
    cases hm : splitChar sep rest with
    | nil => simp [splitChar, hm]
    | cons h t => by_cases hc : c = sep <;> simp [splitChar, hm, hc]

theorem splitChar_cons_eq (sep x : Char) (rest h : List Char) (t : List (List Char))
    (hm : splitChar sep rest = h :: t) :
    splitChar sep (x :: rest) = if x = sep then [] :: h :: t else (x :: h) :: t := by
  rw [splitChar, hm]

/-- Joining a one-character split on a one-character separator replaces every
separator occurrence, character by character. -/
theorem joinsplit_map (sep c : Char) (l : List Char) :
    joinChar c (splitChar sep l) = l.map (fun x => if x = sep then c else x) := by
  induction l with
  | nil => rfl
  | cons x rest ih =>
    cases hm : splitChar sep rest with
    | nil => exact absurd hm (splitChar_ne_nil sep rest)
    | cons h t =>
      rw [hm] at ih
      rw [splitChar_cons_eq sep x rest h t hm, List.map_cons]
      by_cases hx : x = sep
      · rw [if_pos hx, if_pos hx]
        rw [show joinChar c ([] :: h :: t) = c :: joinChar c (h :: t) from rfl]
        rw [ih]
      · rw [if_neg hx, if_neg hx]
        cases t with
        | nil =>
          rw [show joinChar c [x :: h] = x :: h from rfl]
          rw [show joinChar c [h] = h from rfl] at ih
          rw [ih]
        | cons t1 t2 =>
          rw [show joinChar c ((x :: h) :: t1 :: t2) =
            x :: (h ++ c :: joinChar c (t1 :: t2)) from rfl]
          rw [show joinChar c (h :: t1 :: t2) = h ++ c :: joinChar c (t1 :: t2) from rfl]
            at ih
          rw [ih]

theorem string_data_eq_nil (s : String) : s.data = [] ↔ s = "" := by
  cases s with
  | mk l =>
    constructor
    · intro h
      rw [show ({ data := l } : String).data = l from rfl] at h
      rw [h]
    · intro h
      rw [h]

/-- The underscore-mapping branch of the loader's name resolution in closed
form: it always amounts to replacing every underscore by a space. -/
theorem resolveName_no_key (n : String) :
    resolveName (some n) none =
      (if String.mk (n.data.map (fun x => if x = '_' then ' ' else x)) = "" then none
       else some (String.mk (n.data.map (fun x => if x = '_' then ' ' else x)))) := by
  rw [resolveName]
  show (if (if n.data.contains '_'
        then String.mk (joinChar ' ' (splitChar '_' n.data)) else n) = ""
      then none
      else some (if n.data.contains '_'
        then String.mk (joinChar ' ' (splitChar '_' n.data)) else n)) = _
  cases hc : n.data.contains '_' with
  | true => simp [hc, joinsplit_map]
  | false =>
    have hmap : n.data.map (fun x => if x = '_' then ' ' else x) = n.data := by
      apply map_id_of_mem
      intro x hx
      rw [if_neg]
      intro hxe
      subst hxe
      have hme := List.elem_eq_true_of_mem hx
      rw [show n.data.contains '_' = n.data.elem '_' from rfl, hme] at hc
      cases hc
    have hf : ¬(false = true) := by simp
    rw [if_neg hf, hmap]

/-! ## Claim C4, amended: a malformed record aborts the rest of its file -/

/-- Claim C4 amended (the counterexample forces per-file instead of per-record
recovery): a malformed record inside a batch file does not merely get skipped:
the records before it are committed (each insert commits), the malformed
record and everything after it in the same file are abandoned, the file is not
counted, and the driver then continues with the next file; the invocation
still reports status 200. -/
theorem c4_amended_record_failure_aborts_file :
    (∀ (db : List Row) (pre : List DbRec) (bad : DbRec) (post : List DbRec),
      (∀ r ∈ pre, validRec r = true) → validRec bad = false →
      processRecords db (pre ++ bad :: post) = (mergeAll db pre, false)) ∧
    (∀ (db : List Row) (count : Nat) (recs : List DbRec) (fs : List FileContent),
      recs.all validRec = false →
      driveLoop db count (.arr recs :: fs) =
        driveLoop (mergeAll db (recs.takeWhile validRec)) count fs) ∧
    (∀ (name root : String) (db : List Row) (bucket : List (String × FileContent)),
      name ≠ "" →
      ((loader_lambda_handler (some name) none true root db bucket).1).statusCode = 200) := by
  refine ⟨?_, ?_, ?_⟩
  · intro db pre bad post hpre hbad
    induction pre generalizing db with
    | nil =>
      obtain ⟨msg, hmsg⟩ := insert_of_invalid db bad hbad
      rw [List.nil_append, processRecords, hmsg, mergeAll_nil]
    | cons p t ih =>
      have hp := hpre p (List.mem_cons_self p t)
      rw [List.cons_append, processRecords, step_of_valid db p hp]
      show processRecords (step db p) (t ++ bad :: post) = (mergeAll db (p :: t), false)
      rw [ih (step db p) (fun r hr => hpre r (List.mem_cons_of_mem p hr))]
      rw [mergeAll_cons]
  · intro db count recs fs hbadrecs
    rw [driveLoop]
    rw [show processOne db (.arr recs) = processRecords db recs from rfl]
    rw [processRecords_eq, hbadrecs]
    rfl
  · intro name root db bucket hname
    have hne : String.mk (name.data.map (fun x => if x = '_' then ' ' else x)) ≠ "" := by
      intro he
      apply hname
      rw [← string_data_eq_nil] at he ⊢
      rw [show (String.mk (name.data.map (fun x => if x = '_' then ' ' else x))).data
        = name.data.map (fun x => if x = '_' then ' ' else x) from rfl] at he
      exact List.map_eq_nil_iff.mp he
    rw [loader_lambda_handler, resolveName_no_key, if_neg hne]
    rfl

/-- Witness for the amended C4: the concrete 3-record file evaluates as the
amended claim says, and the handler reports success. -/
theorem c4_amended_record_failure_aborts_file_witness :
    processRecords [] ([recA] ++ recBad :: [recC]) = (mergeAll [] [recA], false) ∧
      ((loader_lambda_handler (some "ind") none true "" [] []).1).statusCode = 200 :=
  ⟨c4_amended_record_failure_aborts_file.1 [] [recA] recBad [recC]
      (by decide) (by decide),
   c4_amended_record_failure_aborts_file.2.2 "ind" "" [] [] (by decide)⟩

/-! ## Claim C8: per-file failures are isolated -/

theorem map_us_id (l : List Char) (hc : l.contains '_' = false) :
    l.map (fun x => if x = '_' then ' ' else x) = l := by
  apply map_id_of_mem
  intro x hx
  rw [if_neg]
  intro hxe
  subst hxe
  have hme := List.elem_eq_true_of_mem hx
  rw [show l.contains '_' = l.elem '_' from rfl, hme] at hc
  cases hc

/-- A name without underscores resolves to itself. -/
theorem resolveName_id (name : String) (hname : name ≠ "")
    (hc : name.data.contains '_' = false) : resolveName (some name) none = some name := by
  rw [resolveName_no_key, map_us_id name.data hc]
  rw [show String.mk name.data = name from rfl, if_neg hname]

/-- The completion flag of one file does not depend on the table state. -/
theorem processOne_flag (db : List Row) (f : FileContent) :
    (processOne db f).2 = fileOk f := by
  cases f with
  | bad => rfl
  | arr recs =>
    rw [show processOne db (.arr recs) = processRecords db recs from rfl,
      processRecords_eq]
    rfl
  | one r =>
    cases hv : validRec r with
    | true =>
      rw [processOne, step_of_valid db r hv]
      simp [fileOk, hv]
    | false =>
      obtain ⟨msg, hmsg⟩ := insert_of_invalid db r hv
      rw [processOne, hmsg]
      simp [fileOk, hv]

/-- Claim C8 (confirmed): a file whose read or parse fails contributes nothing
and blocks nothing — deleting it from the stream leaves the driver's final
table and count unchanged; the reported count is exactly the number of files
whose processing completed; and the invocation (with a resolvable name and a
working connection) returns 200 carrying that count. -/
theorem c8_file_failures_isolated :
    (∀ (db : List Row) (count : Nat) (xs ys : List FileContent),
      driveLoop db count (xs ++ .bad :: ys) = driveLoop db count (xs ++ ys)) ∧
    (∀ (db : List Row) (count : Nat) (files : List FileContent),
      (driveLoop db count files).2 = count + files.countP fileOk) ∧
    (∀ (name root : String) (db : List Row) (bucket : List (String × FileContent)),
      name ≠ "" → name.data.contains '_' = false →
      loader_lambda_handler (some name) none true root db bucket =
        (⟨200, none, some ((driveFiles db
            ((fetch_new_files_all (bucket.map (fun p => p.1)) root
                (some (loaderLastKey db name))).map (fun k =>
              ((bucket.find? (fun p => p.1 == k)).map (fun p => p.2)).getD .bad))).2)⟩,
         (driveFiles db
            ((fetch_new_files_all (bucket.map (fun p => p.1)) root
                (some (loaderLastKey db name))).map (fun k =>
              ((bucket.find? (fun p => p.1 == k)).map (fun p => p.2)).getD .bad))).1)) := by
  refine ⟨?_, ?_, ?_⟩
  · intro db count xs ys
    induction xs generalizing db count with
    | nil => rfl
    | cons f fs ih =>
      rcases hpf : processOne db f with ⟨d, ok⟩
      rw [List.cons_append, driveLoop, hpf, List.cons_append, driveLoop, hpf]
      exact ih d (if ok = true then count + 1 else count)
  · intro db count files
    induction files generalizing db count with
    | nil => simp [driveLoop]
    | cons f fs ih =>
      rcases hpf : processOne db f with ⟨d, ok⟩
      have hflag : ok = fileOk f := by
        have h2 := processOne_flag db f
        rw [hpf] at h2
        exact h2
      rw [driveLoop, hpf]
      show (driveLoop d (if ok = true then count + 1 else count) fs).2 = _
      rw [ih]
      subst hflag
      cases hok : fileOk f <;> simp [hok, List.countP_cons] <;> omega
  · intro name root db bucket hname hc
    rw [loader_lambda_handler, resolveName_id name hname hc]
    rfl

/-- Witness for C8 at concrete inputs: a bad file between two good one-record
files is skipped without blocking them, and a concrete invocation reports 200
with the count. -/
theorem c8_file_failures_isolated_witness :
    driveLoop [] 0 ([FileContent.one recA] ++ .bad :: [FileContent.one recC]) =
        driveLoop [] 0 ([FileContent.one recA] ++ [FileContent.one recC]) ∧
      (driveLoop [] 0 [FileContent.one recA, .bad, FileContent.one recC]).2 =
        0 + [FileContent.one recA, FileContent.bad, FileContent.one recC].countP fileOk ∧
      loader_lambda_handler (some "ind") none true "" [] [] = (⟨200, none, some 0⟩, []) := by
  refine ⟨c8_file_failures_isolated.1 [] 0 [FileContent.one recA] [FileContent.one recC],
    c8_file_failures_isolated.2.1 [] 0 [FileContent.one recA, .bad, FileContent.one recC],
    ?_⟩
  have h := c8_file_failures_isolated.2.2 "ind" "" [] [] (by decide) (by decide)
  rw [h]
  rfl

/-! ## Claim C3, amended: what the batch selector actually yields -/

theorem filter_flatten {α : Type} (p : α → Bool) (pages : List (List α)) :
    (pages.map (fun page => page.filter p)).flatten = pages.flatten.filter p := by
  induction pages with
  | nil => rfl
  | cons page rest ih =>
    rw [List.map_cons, List.flatten_cons, List.flatten_cons, List.filter_append, ih]

/-- Claim C3 amended (the counterexample forces strict-bound semantics and the
None boundary): the selector yields, as one stream across pages, exactly the
listed keys (all individuals under the configured prefix) strictly
codepoint-greater than the boundary string. With boundary ind/20240102/ over
the example listing this is the second AND third keys: the watermark-date
batch is re-selected. And because the watermark resolver always returns None,
the boundary the handler actually builds is {name}/None/, which is
codepoint-greater than every digit-dated key of that individual, so the
no-watermark run selects none of the example keys rather than all of them. -/
theorem c3_amended_selection :
    (∀ (store : List String) (rootStr lk : String) (pages : List (List String)),
      lk ≠ "" → pages.flatten = s3Listing store rootStr (some lk) →
      fetch_new_files pages (some lk) =
        store.filter (fun k => rootStr.data.isPrefixOf k.data && lexLt lk.data k.data)) ∧
    (∀ (db : List Row) (name : String),
      loaderLastKey db name = name ++ "/" ++ "None" ++ "/") ∧
    fetch_new_files_all exKeys "" (some "ind/20240102/") =
      ["ind/20240102/b.json", "ind/20240103/c.json"] ∧
    fetch_new_files_all exKeys "" (some (loaderLastKey [] "ind")) = [] := by
  refine ⟨?_, fun db name => rfl, rfl, rfl⟩
  intro store rootStr lk pages hlk hflat
  rw [fetch_new_files, filter_flatten, hflat]
  rw [show s3Listing store rootStr (some lk) =
    store.filter (fun k => rootStr.data.isPrefixOf k.data && lexLt lk.data k.data)
    from rfl]
  refine List.filter_eq_self.mpr ?_
  intro k hk
  obtain ⟨-, hcond⟩ := List.mem_filter.mp hk
  rw [keepKey, if_neg hlk, pyLeS, Bool.not_not]
  have hcond2 : (rootStr.data.isPrefixOf k.data && lexLt lk.data k.data) = true := hcond
  exact (Bool.and_eq_true _ _ |>.mp hcond2).2

/-- Witness for the amended C3 at the spec's ordering example, with the real
listing split into two pages. -/
theorem c3_amended_selection_witness :
    fetch_new_files [["ind/20240102/b.json"], ["ind/20240103/c.json"]]
        (some "ind/20240102/") =
      exKeys.filter (fun k =>
        ("" : String).data.isPrefixOf k.data && lexLt "ind/20240102/".data k.data) :=
  c3_amended_selection.1 exKeys "" "ind/20240102/"
    [["ind/20240102/b.json"], ["ind/20240103/c.json"]] (by decide) (by decide)

/-! ## Claim C5, amended: published_date resolution -/

theorem append_ne_empty (s t : String) (h : t.data ≠ []) : s ++ t ≠ "" := by
  intro he
  rw [← string_data_eq_nil, String.data_append] at he
  rcases List.append_eq_nil.mp he with ⟨-, h2⟩
  exact h h2

/-- The Z rewrite makes a trailing UTC designator parse exactly like the
explicit +00:00 offset. -/
theorem pubDateParse_z (s : String) :
    pubDateParse (s ++ "Z") = pubDateParse (s ++ "+00:00") := by
  rw [pubDateParse, pubDateParse, applyZ, applyZ]
  rw [String.data_append, String.data_append]
  rw [show "Z".data = ['Z'] from rfl, List.getLast?_concat, List.dropLast_concat]
  rw [if_pos rfl]
  rw [List.getLast?_append]
  rw [show "+00:00".data.getLast?.or s.data.getLast? = some '0' from rfl]
  rw [if_neg (by decide)]
  rw [fromisoformat, fromisoformat]
  rw [show (String.mk (s.data ++ "+00:00".data)).data = s.data ++ "+00:00".data from rfl]
  rw [String.data_append]

/-- Claim C5 amended (the counterexample forces dropping the parse-failure
fallback): an absent published_date string falls back to searched_at, and a
trailing Z parses exactly like an explicit +00:00 offset, but a present,
non-empty string that fails to parse leaves published_date null — the
searched_at fallback applies only to absence. -/
theorem c5_amended_published_date :
    (∀ (item : ResultItem) (t : PyDateTime) (ind : String) (kws : List String),
      item.published_date = none →
      (process_content item t ind kws).published_date = some t) ∧
    (∀ (item : ResultItem) (s : String) (t : PyDateTime) (ind : String)
        (kws : List String),
      (process_content { item with published_date := some (s ++ "Z") } t ind kws).published_date =
        (process_content { item with published_date := some (s ++ "+00:00") } t ind kws).published_date) ∧
    (∀ (item : ResultItem) (s : String) (t : PyDateTime) (ind : String)
        (kws : List String),
      s ≠ "" → pubDateParse s = none →
      (process_content { item with published_date := some s } t ind kws).published_date = none) := by
  refine ⟨?_, ?_, ?_⟩
  · intro item t ind kws hpd
    simp [process_content, hpd]
  · intro item s t ind kws
    have hz : s ++ "Z" ≠ "" := append_ne_empty s "Z" (by decide)
    have ho : s ++ "+00:00" ≠ "" := append_ne_empty s "+00:00" (by decide)
    simp only [process_content]
    rw [if_pos hz, if_pos ho, pubDateParse_z]
  · intro item s t ind kws hs hparse
    simp only [process_content]
    rw [if_pos hs, hparse]

/-- Witness for the amended C5 at concrete inputs: absence falls back, the Z
scenario of the spec parses like +00:00, and a garbage string stays null. -/
theorem c5_amended_published_date_witness :
    (process_content itemNoDate t0 "A" ["k"]).published_date = some t0 ∧
      (process_content { itemNoDate with published_date := some ("2024-01-01T00:00:00" ++ "Z") } t0 "A" ["k"]).published_date =
        (process_content { itemNoDate with published_date := some ("2024-01-01T00:00:00" ++ "+00:00") } t0 "A" ["k"]).published_date ∧
      (process_content { itemNoDate with published_date := some "not-a-date" } t0 "A" ["k"]).published_date = none :=
  ⟨c5_amended_published_date.1 itemNoDate t0 "A" ["k"] rfl,
   c5_amended_published_date.2.1 itemNoDate "2024-01-01T00:00:00" t0 "A" ["k"],
   c5_amended_published_date.2.2 itemNoDate "not-a-date" t0 "A" ["k"]
     (by decide) (by decide)⟩

/-! ## Claim C9: batch-key path segment round trip -/

/-- Splitting a ++ sep :: rest where a is separator-free peels off a. -/
theorem split_prepend (sep : Char) (a rest : List Char) (ha : ∀ c ∈ a, c ≠ sep) :
    splitChar sep (a ++ sep :: rest) = a :: splitChar sep rest := by
  induction a with
  | nil =>
    cases hm : splitChar sep rest with
    | nil => exact absurd hm (splitChar_ne_nil sep rest)
    | cons h t =>
      rw [List.nil_append, splitChar_cons_eq sep sep rest h t hm, if_pos rfl]
  | cons x a2 ih =>
    have hx := ha x (List.mem_cons_self x a2)
    have ih2 := ih (fun c hc => ha c (List.mem_cons_of_mem x hc))
    cases hm : splitChar sep (a2 ++ sep :: rest) with
    | nil => exact absurd hm (splitChar_ne_nil sep _)
    | cons h t =>
      rw [List.cons_append, splitChar_cons_eq sep x _ h t hm, if_neg hx]
      rw [hm] at ih2
      injection ih2 with ihh iht
      rw [ihh, iht]

/-- Splitting a separator-free list gives one part. -/
theorem split_single (sep : Char) (a : List Char) (ha : ∀ c ∈ a, c ≠ sep) :
    splitChar sep a = [a] := by
  induction a with
  | nil => rfl
  | cons x a2 ih =>
    have hx := ha x (List.mem_cons_self x a2)
    have ih2 := ih (fun c hc => ha c (List.mem_cons_of_mem x hc))
    rw [splitChar_cons_eq sep x a2 a2 [] ih2, if_neg hx]

theorem digitChar_ne_slash (n : Nat) : digitChar n ≠ '/' := by
  unfold digitChar
  split <;> decide

theorem no_slash_literal : ∀ c ∈ "tavily_search_results".data, c ≠ '/' := by decide

theorem no_slash_safe (name : String) :
    ∀ c ∈ (safe_individual_of name).data, c ≠ '/' := by
  intro c hc
  rw [show (safe_individual_of name).data =
    name.data.map (fun c => if c.isAlphanum then c else '_') from rfl] at hc
  obtain ⟨c0, _, hmap⟩ := List.mem_map.mp hc
  subst hmap
  by_cases h0 : c0.isAlphanum
  · rw [if_pos h0]
    intro he
    subst he
    exact absurd h0 (by decide)
  · rw [if_neg h0]
    decide

theorem no_slash_date (t : PyDateTime) : ∀ c ∈ date_str_chars t, c ≠ '/' := by
  intro c hc
  rw [date_str_chars, pad4, pad2, pad2] at hc
  simp only [List.mem_append, List.mem_cons, List.not_mem_nil, or_false] at hc
  rcases hc with ((h | h | h | h) | h | h) | h | h <;> rw [h] <;>
    exact digitChar_ne_slash _

theorem no_slash_ts (t : PyDateTime) : ∀ c ∈ timestamp_str_chars t, c ≠ '/' := by
  intro c hc
  rw [timestamp_str_chars] at hc
  rcases List.mem_append.mp hc with hd | hc2
  · exact no_slash_date t c hd
  · rcases List.mem_cons.mp hc2 with h | hc3
    · rw [h]; decide
    · rw [pad2, pad2, pad2] at hc3
      simp only [List.mem_append, List.mem_cons, List.not_mem_nil, or_false] at hc3
      rcases hc3 with ((h | h) | h | h) | h | h <;> (rw [h]; exact digitChar_ne_slash _)

theorem no_slash_file (t : PyDateTime) :
    ∀ c ∈ timestamp_str_chars t ++ ".json".data, c ≠ '/' := by
  intro c hc
  rcases List.mem_append.mp hc with h1 | h2
  · exact no_slash_ts t c h1
  · rw [show ".json".data = ['.', 'j', 's', 'o', 'n'] from rfl] at h2
    simp only [List.mem_cons, List.not_mem_nil, or_false] at h2
    rcases h2 with h | h | h | h | h <;> (subst h; decide)

/-- The loader's split of a saved key recovers the four path components. -/
theorem split_key (name : String) (t : PyDateTime) :
    splitChar '/' (s3_key_for name t).data =
      ["tavily_search_results".data, (safe_individual_of name).data,
       date_str_chars t, timestamp_str_chars t ++ ".json".data] := by
  rw [show (s3_key_for name t).data = s3_key_chars name t from rfl, s3_key_chars]
  rw [split_prepend '/' _ _ no_slash_literal]
  rw [split_prepend '/' _ _ (no_slash_safe name)]
  rw [split_prepend '/' _ _ (no_slash_date t)]
  rw [split_single '/' _ (no_slash_file t)]

/-- A key that splits into exactly four parts resolves through its second
segment. -/
theorem resolveName_with_key (k : String) (hk : k ≠ "") (p0 p1 p2 p3 : List Char)
    (hsplit : splitChar '/' k.data = [p0, p1, p2, p3]) :
    resolveName none (some k) = resolveName (some (String.mk p1)) none := by
  rw [resolveName, resolveName, if_pos hk, hsplit]
  rfl

/-- Claim C9 (confirmed): for a name of alphanumerics and spaces, the saved
key's second path segment is the name with non-alphanumerics (here: spaces)
replaced by underscores, and the loader's derivation (segment 1, underscores
back to spaces) recovers the original name. -/
theorem c9_key_name_roundtrip (name : String) (t : PyDateTime)
    (hname : name ≠ "")
    (hchars : ∀ c ∈ name.data, c.isAlphanum = true ∨ c = ' ') :
    resolveName none (some (s3_key_for name t)) = some name := by
  have hkne : s3_key_for name t ≠ "" := by
    intro he
    rw [← string_data_eq_nil] at he
    rw [show (s3_key_for name t).data = s3_key_chars name t from rfl, s3_key_chars] at he
    rw [show "tavily_search_results".data = 't' :: "avily_search_results".data
      from rfl] at he
    cases he
  rw [resolveName_with_key (s3_key_for name t) hkne _ _ _ _ (split_key name t)]
  rw [show String.mk (safe_individual_of name).data = safe_individual_of name from rfl]
  rw [resolveName_no_key]
  have hround : (safe_individual_of name).data.map (fun x => if x = '_' then ' ' else x)
      = name.data := by
    rw [show (safe_individual_of name).data =
      name.data.map (fun c => if c.isAlphanum then c else '_') from rfl]
    rw [List.map_map]
    apply map_id_of_mem
    intro c hc
    rcases hchars c hc with h | h
    · rw [Function.comp_apply, if_pos h, if_neg]
      intro he
      subst he
      exact absurd h (by decide)
    · subst h
      decide
  rw [hround]
  rw [show String.mk name.data = name from rfl, if_neg hname]

/-- Witness for C9 at a concrete name and timestamp. -/
theorem c9_key_name_roundtrip_witness :
    resolveName none (some (s3_key_for "John Smith" t0)) = some "John Smith" :=
  c9_key_name_roundtrip "John Smith" t0 (by decide) (by decide)

/-! ## Claim C10: an S3 write failure is invisible in the ingestion response -/

/-- Claim C10 (confirmed): when the put fails, save_to_s3 catches the
exception and returns None; the handler discards save_to_s3's return value
entirely, so its response is identical whether the write succeeded or failed,
and with a valid name it reports 200 with the full processed count. -/
theorem c10_save_failure_invisible :
    (∀ (items : List ProcessedItem) (t : PyDateTime) (ind : String),
      save_to_s3 false items t ind = none) ∧
    (∀ (event_name : Option String) (kwIn : KeywordsInput) (apiKeySet : Bool)
        (results : List ResultItem) (t : PyDateTime),
      ingestion_lambda_handler event_name kwIn apiKeySet results t false =
        ingestion_lambda_handler event_name kwIn apiKeySet results t true) ∧
    (∀ (name : String) (ks : List String) (results : List ResultItem) (t : PyDateTime),
      name ≠ "" →
      (ingestion_lambda_handler (some name) (.strList ks) true results t false).statusCode
          = 200 ∧
        (ingestion_lambda_handler (some name) (.strList ks) true results t false).processed_count
          = some results.length) := by
  refine ⟨fun items t ind => rfl, fun e k a r t => rfl, ?_⟩
  intro name ks results t hname
  constructor <;> simp [ingestion_lambda_handler, hname]

/-- Witness for C10 at a concrete invocation with one result item. -/
theorem c10_save_failure_invisible_witness :
    save_to_s3 false [] t0 "A" = none ∧
      ingestion_lambda_handler (some "A") (.strList ["k"]) true [itemNoDate] t0 false =
        ingestion_lambda_handler (some "A") (.strList ["k"]) true [itemNoDate] t0 true ∧
      (ingestion_lambda_handler (some "A") (.strList ["k"]) true [itemNoDate] t0 false).statusCode
          = 200 ∧
      (ingestion_lambda_handler (some "A") (.strList ["k"]) true [itemNoDate] t0 false).processed_count
          = some 1 :=
  ⟨c10_save_failure_invisible.1 [] t0 "A",
   c10_save_failure_invisible.2.1 (some "A") (.strList ["k"]) true [itemNoDate] t0,
   (c10_save_failure_invisible.2.2 "A" ["k"] [itemNoDate] t0 (by decide)).1,
   ((c10_save_failure_invisible.2.2 "A" ["k"] [itemNoDate] t0 (by decide)).2).trans rfl⟩
